import Mathlib

/-!
# ChatArea session state: a shallow embedding

The React component `ChatArea` (src/components/ChatArea.jsx) keeps the state of
one chat room: the message list, the list of connected users, the set of users
currently typing, the local "is typing" flag and its debounce timer.  Each
socket handler, the effect set-up / clean-up pair, `sendMessage` and
`handleTyping` are embedded here as pure functions on an explicit state record.
Side effects (socket emissions, toast calls, pending timers, registered
listeners) are recorded in the state as logs, in the order they are performed.
-/

namespace ChatArea

/-! ## Data model -/

/-- A user object as carried by presence payloads and message senders. -/
structure User where
  _id : String
  username : String
deriving DecidableEq, Repr

/-- A chat message as returned by the REST API and by `message received`. -/
structure Message where
  _id : String
  sender : User
  content : String
  createdAt : Nat
deriving DecidableEq, Repr

/-- The `selectedGroup` prop. -/
structure Group where
  _id : String
  name : String
  description : String
deriving DecidableEq, Repr

/-- The object parsed from `localStorage.userInfo`; absent fields are `none`. -/
structure UserInfo where
  username : Option String
  token : Option String
deriving DecidableEq, Repr

/-- Events the component emits on the socket; an absent value (`undefined`) is `none`. -/
inductive Emit where
  | joinRoom (groupId : Option String)
  | leaveRoom (groupId : Option String)
  | newMessage (data : Message) (groupId : Option String)
  | typing (groupId : Option String) (username : Option String)
  | stopTyping (groupId : Option String) (username : Option String)
deriving DecidableEq, Repr

/-- The options object handed to `toast`. -/
structure ToastOptions where
  title : String
  description : Option String
  status : String
  duration : Nat
  isClosable : Bool
  position : Option String
deriving DecidableEq, Repr

/-- The payload of a `notification` event. -/
structure Notification where
  type : Option String
  message : Option String
deriving DecidableEq, Repr

/-- A pending `setTimeout`.  The only callback the component schedules is the one of
`handleTyping`, which closes over `selectedGroup?._id` and `currentUser?.username`. -/
structure Timer where
  id : Nat
  delay : Nat
  groupId : Option String
  username : Option String
deriving DecidableEq, Repr

/-! ## JavaScript `Set`, as an insertion-ordered list without repetition -/

/-- A JavaScript `Set`: its elements in insertion order, none repeated. -/
def JSSet (α : Type) [DecidableEq α] : Type := { l : List α // l.Nodup }

instance {α : Type} [DecidableEq α] : DecidableEq (JSSet α) :=
  inferInstanceAs (DecidableEq { l : List α // l.Nodup })

namespace JSSet

variable {α : Type} [DecidableEq α]

/-- The value `new Set()`. -/
def empty : JSSet α := ⟨[], List.nodup_nil⟩

/-- The array `[...set]`: the elements in insertion order. -/
def toArray (s : JSSet α) : List α := s.val

/-- The method `set.add(x)`: appends `x` unless it is already an element. -/
def add (s : JSSet α) (x : α) : JSSet α :=
  if h : x ∈ s.val then s
  else ⟨s.val ++ [x], List.Nodup.append s.property (List.nodup_singleton x)
    (by
      intro a ha hx
      rw [List.mem_singleton] at hx
      exact h (hx ▸ ha))⟩

/-- The constructor `new Set(iterable)`: adds the elements one by one. -/
def ofArray (l : List α) : JSSet α := l.foldl add empty

/-- The method `set.delete(x)`. -/
def delete (s : JSSet α) (x : α) : JSSet α := ⟨s.val.erase x, s.property.erase x⟩

/-- The property `set.size`. -/
def size (s : JSSet α) : Nat := s.val.length

end JSSet

/-! ## Component state -/

/-- The state of one mounted `ChatArea`, together with the logs of its side effects. -/
structure State where
  /-- State hook `useState([])`. -/
  messages : List Message
  /-- State hook `useState("")`: the content of the input box. -/
  newMessage : String
  /-- State hook `useState([])`; an entry may be `undefined` (`none`), hence `user?._id`. -/
  connectedUsers : List (Option User)
  /-- State hook `useState(false)`. -/
  isTyping : Bool
  /-- State hook `useState(new Set())`. -/
  typingUsers : JSSet (Option String)
  /-- Ref `useRef(null)`: the id returned by the last `setTimeout`. -/
  typingTimeOutRef : Option Nat
  /-- Event names that currently have a listener on the socket. -/
  listeners : List String
  /-- The `socket.emit` calls made so far, oldest first. -/
  emitted : List Emit
  /-- The `toast` calls made so far, oldest first. -/
  toasts : List ToastOptions
  /-- Timers scheduled and neither fired nor cleared. -/
  timers : List Timer
  /-- The id the next `setTimeout` returns. -/
  nextTimerId : Nat
deriving DecidableEq

/-- The state right after the component mounts. -/
def initial : State :=
  { messages := [], newMessage := "", connectedUsers := [], isTyping := false,
    typingUsers := JSSet.empty, typingTimeOutRef := none, listeners := [],
    emitted := [], toasts := [], timers := [], nextTimerId := 0 }

/-- The expression `selectedGroup?._id`. -/
def groupIdOf (selectedGroup : Option Group) : Option String :=
  selectedGroup.map (fun g => g._id)

/-- The expression `currentUser?.username`. -/
def usernameOf (currentUser : Option UserInfo) : Option String :=
  currentUser.bind (fun u => u.username)

/-- The expression `user?._id`. -/
def idOf (user : Option User) : Option String :=
  user.map (fun u => u._id)

/-- The call `socket.emit(...)`. -/
def emit (e : Emit) (s : State) : State := { s with emitted := s.emitted ++ [e] }

/-- The call `socket.on(name, ...)`. -/
def socketOn (name : String) (s : State) : State :=
  { s with listeners := s.listeners ++ [name] }

/-- The call `socket.off(name)`: removes every listener of that event. -/
def socketOff (name : String) (s : State) : State :=
  { s with listeners := s.listeners.filter (fun n => n != name) }

/-- The call `toast(options)`. -/
def toast (o : ToastOptions) (s : State) : State := { s with toasts := s.toasts ++ [o] }

/-! ## Socket handlers (lines 62-102) -/

/-- Handler of `message received`: `setMessages((prev) => [...prev, newMessage])`. -/
def onMessageReceived (newMessage : Message) (s : State) : State :=
  { s with messages := s.messages ++ [newMessage] }

/-- Handler of `users in room`: `setConnectedUsers(users)`. -/
def onUsersInRoom (users : List (Option User)) (s : State) : State :=
  { s with connectedUsers := users }

/-- Handler of `user joined`: `setConnectedUsers((prev) => [...prev, user])`. -/
def onUserJoined (user : Option User) (s : State) : State :=
  { s with connectedUsers := s.connectedUsers ++ [user] }

/-- Handler of `user left`:
`setConnectedUsers((prev) => prev.filter((user) => user?._id !== userId))`. -/
def onUserLeft (userId : Option String) (s : State) : State :=
  { s with connectedUsers := s.connectedUsers.filter (fun user => idOf user != userId) }

/-- Handler of `notification`: one `toast` call. -/
def onNotification (notification : Notification) (s : State) : State :=
  toast
    { title := if notification.type = some "USER_JOINED" then "New User" else "Notification",
      description := notification.message,
      status := "info",
      duration := 3000,
      isClosable := true,
      position := some "top-right" } s

/-- Handler of `user typing`: `setTypingUsers((prev) => new Set([...prev, username]))`. -/
def onUserTyping (username : Option String) (s : State) : State :=
  { s with typingUsers := JSSet.ofArray (s.typingUsers.toArray ++ [username]) }

/-- Handler of `user stop typing`: copies the set and deletes `username` from the copy. -/
def onUserStopTyping (username : Option String) (s : State) : State :=
  { s with typingUsers := (JSSet.ofArray s.typingUsers.toArray).delete username }

/-! ## Room effect (lines 40-115) -/

/-- Completion of `fetchMessages`: `some data` when `axios.get` resolves
(`setMessages(data)`), `none` when it rejects (the error is only logged). -/
def fetchMessagesSettled (result : Option (List Message)) (s : State) : State :=
  match result with
  | some data => { s with messages := data }
  | none => s

/-- The body of the room effect, run when `selectedGroup` or `socket` changes: the history
request is issued (its completion is `fetchMessagesSettled`), `join room` is emitted and
the seven listeners are registered.  Nothing happens without a selected group; the
`socket` prop is taken to be present. -/
def enterRoom (selectedGroup : Option Group) (s : State) : State :=
  match selectedGroup with
  | none => s
  | some _ =>
    socketOn "user stop typing" (socketOn "user typing" (socketOn "notification"
      (socketOn "user left" (socketOn "user joined" (socketOn "users in room"
        (socketOn "message received" (emit (Emit.joinRoom (groupIdOf selectedGroup)) s)))))))

/-- The function returned by the room effect, run before the effect runs again and on
unmount: emits `leave room` and removes the seven listeners. -/
def cleanup (selectedGroup : Option Group) (s : State) : State :=
  socketOff "notification" (socketOff "user stop typing" (socketOff "user typing"
    (socketOff "user left" (socketOff "user joined" (socketOff "users in room"
      (socketOff "message received" (emit (Emit.leaveRoom (groupIdOf selectedGroup)) s)))))))

/-! ## Sending (lines 117-148) -/

/-- The white space and line terminator code points that `String.prototype.trim` strips. -/
def isJSWhiteSpace (c : Char) : Bool :=
  let n := c.toNat
  n == 0x09 || n == 0x0A || n == 0x0B || n == 0x0C || n == 0x0D || n == 0x20 ||
  n == 0xA0 || n == 0x1680 || (0x2000 ≤ n && n ≤ 0x200A) || n == 0x2028 ||
  n == 0x2029 || n == 0x202F || n == 0x205F || n == 0x3000 || n == 0xFEFF

/-- The method `str.trim()`. -/
def trim (str : String) : String :=
  String.mk ((str.toList.dropWhile isJSWhiteSpace).reverse.dropWhile isJSWhiteSpace).reverse

/-- The body of the `POST /api/messages` request. -/
structure PostBody where
  content : String
  groupId : Option String
deriving DecidableEq, Repr

/-- Continuation of `sendMessage` after `axios.post` resolves with `data`. -/
def sendMessageResolved (selectedGroup : Option Group) (data : Message) (s : State) : State :=
  let s1 := emit (Emit.newMessage data (groupIdOf selectedGroup)) s
  { s1 with messages := s1.messages ++ [data], newMessage := "" }

/-- The `catch` branch of `sendMessage`. -/
def sendMessageRejected (s : State) : State :=
  toast
    { title := "Error sending message",
      description := none,
      status := "error",
      duration := 3000,
      isClosable := true,
      position := none } s

/-- The function `sendMessage`.  The server is the parameter `post`: it answers a request
body with `some data` (resolved) or `none` (rejected); the request and its answer are
taken as one step. -/
def sendMessage (selectedGroup : Option Group) (post : PostBody → Option Message)
    (s : State) : State :=
  if trim s.newMessage = "" then s
  else
    match post { content := s.newMessage, groupId := groupIdOf selectedGroup } with
    | some data => sendMessageResolved selectedGroup data s
    | none => sendMessageRejected s

/-! ## Typing debounce (lines 150-169) -/

/-- The call `clearTimeout(id)`: a pending timer with that id is dropped; any other value
is ignored. -/
def clearTimeout (id : Option Nat) (s : State) : State :=
  { s with timers := s.timers.filter (fun t => some t.id != id) }

/-- The call `setTimeout(callback, delay)` of `handleTyping`, followed by the store of the
returned id in `typingTimeOutRef.current`. -/
def setTypingTimeout (delay : Nat) (groupId username : Option String) (s : State) : State :=
  { s with
    timers := s.timers ++
      [{ id := s.nextTimerId, delay := delay, groupId := groupId, username := username }],
    typingTimeOutRef := some s.nextTimerId,
    nextTimerId := s.nextTimerId + 1 }

/-- The function `handleTyping`, called with the new content of the input box. -/
def handleTyping (selectedGroup : Option Group) (currentUser : Option UserInfo)
    (value : String) (s : State) : State :=
  let s1 := { s with newMessage := value }
  let s2 :=
    if !s.isTyping && selectedGroup.isSome then
      emit (Emit.typing (groupIdOf selectedGroup) (usernameOf currentUser))
        { s1 with isTyping := true }
    else s1
  let s3 := clearTimeout s2.typingTimeOutRef s2
  setTypingTimeout 2000 (groupIdOf selectedGroup) (usernameOf currentUser) s3

/-- The timer with id `id` expires: if it is still pending it is consumed and its callback
runs (emit `stop typing`, `setIsTyping(false)`); a timer that is not pending cannot fire. -/
def fireTimer (id : Nat) (s : State) : State :=
  match s.timers.find? (fun t => t.id == id) with
  | none => s
  | some t =>
    let s1 := { s with timers := s.timers.filter (fun t => t.id != id) }
    { emit (Emit.stopTyping t.groupId t.username) s1 with isTyping := false }

/-! ## Event sequences and sample data -/

/-- The two incremental presence events. -/
inductive PresenceEvent where
  | userJoined (user : Option User)
  | userLeft (userId : Option String)
deriving DecidableEq, Repr

/-- One presence event handled by the component. -/
def applyPresence (s : State) : PresenceEvent → State
  | PresenceEvent.userJoined user => onUserJoined user s
  | PresenceEvent.userLeft userId => onUserLeft userId s

/-- A sequence of presence events handled in delivery order. -/
def replayPresence (evs : List PresenceEvent) (s : State) : State :=
  evs.foldl applyPresence s

/-- The ids (`user?._id`) of the entries of `connectedUsers`, as a set. -/
def connectedIds (s : State) : Finset (Option String) :=
  (s.connectedUsers.map idOf).toFinset

/-- The reference replay on a mathematical set of ids: insert on join, erase on leave. -/
def replayIds (evs : List PresenceEvent) (ids : Finset (Option String)) :
    Finset (Option String) :=
  evs.foldl
    (fun acc ev =>
      match ev with
      | PresenceEvent.userJoined user => insert (idOf user) acc
      | PresenceEvent.userLeft userId => acc.erase userId)
    ids

/-- The two inputs of the local typing debounce: the user edits the input box, or the
timer with the given id expires. -/
inductive TypingInput where
  | edit (value : String)
  | expiry (id : Nat)
deriving DecidableEq, Repr

/-- One step of the typing debounce. -/
def typingStep (selectedGroup : Option Group) (currentUser : Option UserInfo) (s : State) :
    TypingInput → State
  | TypingInput.edit value => handleTyping selectedGroup currentUser value s
  | TypingInput.expiry id => fireTimer id s

/-- A sequence of edits and timer expiries, in the order they happen. -/
def typingRun (selectedGroup : Option Group) (currentUser : Option UserInfo)
    (inputs : List TypingInput) (s : State) : State :=
  inputs.foldl (typingStep selectedGroup currentUser) s

/-- The log `typing, stop typing, typing, ...` with `n` entries. -/
def alternatingLog (groupId username : Option String) : Nat → List Emit
  | 0 => []
  | n + 1 =>
    alternatingLog groupId username n ++
      [if n % 2 = 0 then Emit.typing groupId username else Emit.stopTyping groupId username]

/-- What holds of the state after any sequence of edits and expiries in one room: the
emission log alternates, the flag is set exactly after an odd number of emissions, and
the flag is set exactly when one timer, the one of the ref, is pending. -/
structure TypingInv (groupId username : Option String) (s : State) (n : Nat) : Prop where
  log : s.emitted = alternatingLog groupId username n
  flag : s.isTyping = decide (n % 2 = 1)
  idle : s.isTyping = false → s.timers = []
  active : s.isTyping = true →
    ∃ t : Timer, s.timers = [t] ∧ s.typingTimeOutRef = some t.id ∧ t.delay = 2000 ∧
      t.groupId = groupId ∧ t.username = username

/-- Sample user `u1`. -/
def alice : User := { _id := "u1", username := "alice" }

/-- Sample user `u2`. -/
def bob : User := { _id := "u2", username := "bob" }

/-- Sample message `m1`. -/
def m1 : Message := { _id := "m1", sender := alice, content := "hi", createdAt := 0 }

/-- Sample message `m2`. -/
def m2 : Message := { _id := "m2", sender := bob, content := "hey", createdAt := 1 }

/-- Sample message `m3`. -/
def m3 : Message := { _id := "m3", sender := alice, content := "hello", createdAt := 2 }

/-- Sample room. -/
def roomA : Group := { _id := "r1", name := "general", description := "" }

/-- A second sample room. -/
def roomB : Group := { _id := "r2", name := "random", description := "" }

/-- Sample local user. -/
def me : Option UserInfo := some { username := some "alice", token := some "t" }

/-- A session in `roomA` that has received one message, one presence snapshot and one
typing event. -/
def sessionA : State :=
  onUserTyping (some "bob") (onUsersInRoom [some alice, some bob]
    (onMessageReceived m1 (enterRoom (some roomA) initial)))

end ChatArea

/-! ## Auxiliary lemmas -/

namespace ChatArea

theorem connectedIds_onUserJoined (user : Option User) (s : State) :
    connectedIds (onUserJoined user s) = insert (idOf user) (connectedIds s) := by
  ext a
  simp only [connectedIds, onUserJoined, List.map_append, List.map_cons, List.map_nil,
    List.toFinset_append, List.toFinset_cons, List.toFinset_nil, Finset.mem_union,
    Finset.mem_insert, List.mem_toFinset, Finset.not_mem_empty, or_false]
  exact or_comm

theorem connectedIds_onUserLeft (userId : Option String) (s : State) :
    connectedIds (onUserLeft userId s) = (connectedIds s).erase userId := by
  ext a
  simp only [connectedIds, onUserLeft, List.mem_toFinset, List.mem_map, List.mem_filter,
    Finset.mem_erase, bne_iff_ne, ne_eq]
  constructor
  · rintro ⟨u, ⟨hu, hne⟩, rfl⟩
    exact ⟨hne, u, hu, rfl⟩
  · rintro ⟨hne, u, hu, rfl⟩
    exact ⟨u, ⟨hu, hne⟩, rfl⟩

theorem connectedIds_replayPresence (evs : List PresenceEvent) (s : State) :
    connectedIds (replayPresence evs s) = replayIds evs (connectedIds s) := by
  induction evs generalizing s with
  | nil => rfl
  | cons ev evs ih =>
    have hstep : connectedIds (applyPresence s ev) =
        (match ev with
          | PresenceEvent.userJoined user => insert (idOf user) (connectedIds s)
          | PresenceEvent.userLeft userId => (connectedIds s).erase userId) := by
      cases ev with
      | userJoined user => exact connectedIds_onUserJoined user s
      | userLeft userId => exact connectedIds_onUserLeft userId s
    show connectedIds (replayPresence evs (applyPresence s ev)) = _
    rw [ih, hstep]
    rfl

theorem onUserLeft_of_not_mem (userId : Option String) (s : State)
    (h : userId ∉ s.connectedUsers.map idOf) : onUserLeft userId s = s := by
  have hfilter : s.connectedUsers.filter (fun user => idOf user != userId) =
      s.connectedUsers := by
    rw [List.filter_eq_self]
    intro u hu
    simp only [bne_iff_ne, ne_eq]
    intro heq
    exact h (List.mem_map.mpr ⟨u, hu, heq⟩)
  simp only [onUserLeft, hfilter]

namespace JSSet

variable {α : Type} [DecidableEq α]

theorem add_of_mem (s : JSSet α) (x : α) (h : x ∈ s.val) : s.add x = s := by
  simp only [add, h, dite_true]

theorem add_val_of_not_mem (s : JSSet α) (x : α) (h : x ∉ s.val) :
    (s.add x).val = s.val ++ [x] := by
  simp only [add, h, dite_false]

theorem foldl_add_val (l : List α) (acc : JSSet α) (h : (acc.val ++ l).Nodup) :
    (l.foldl add acc).val = acc.val ++ l := by
  induction l generalizing acc with
  | nil => simp
  | cons x xs ih =>
    have hx : x ∉ acc.val := by
      intro hmem
      have hd := List.disjoint_of_nodup_append h
      exact hd hmem (List.mem_cons_self x xs)
    have hval := add_val_of_not_mem acc x hx
    have h2 : ((acc.add x).val ++ xs).Nodup := by
      rw [hval, List.append_assoc]
      exact h
    rw [List.foldl_cons, ih (acc.add x) h2, hval, List.append_assoc]
    rfl

theorem ofArray_toArray (s : JSSet α) : ofArray s.toArray = s := by
  apply Subtype.ext
  have h := foldl_add_val s.val (empty : JSSet α) (by simpa [empty] using s.property)
  simpa [ofArray, toArray, empty] using h

theorem ofArray_append_singleton (s : JSSet α) (x : α) :
    ofArray (s.toArray ++ [x]) = s.add x := by
  unfold ofArray
  rw [List.foldl_append]
  have h := ofArray_toArray s
  unfold ofArray at h
  rw [h]
  rfl

theorem delete_of_not_mem (s : JSSet α) (x : α) (h : x ∉ s.val) : s.delete x = s := by
  apply Subtype.ext
  exact List.erase_of_not_mem h

theorem delete_add_empty (x : α) : ((empty : JSSet α).add x).delete x = empty := by
  apply Subtype.ext
  show List.erase ((empty : JSSet α).add x).val x = []
  rw [add_val_of_not_mem _ _ (by simp [empty])]
  simp [empty]

end JSSet

theorem onUserTyping_eq (username : Option String) (s : State) :
    onUserTyping username s = { s with typingUsers := s.typingUsers.add username } := by
  simp only [onUserTyping, JSSet.ofArray_append_singleton]

theorem onUserStopTyping_eq (username : Option String) (s : State) :
    onUserStopTyping username s =
      { s with typingUsers := s.typingUsers.delete username } := by
  simp only [onUserStopTyping, JSSet.ofArray_toArray]

end ChatArea

/-! ## Presence (connectedUsers) -/

namespace ChatArea

/-- C1: after a `users in room` snapshot followed by any sequence of `user joined` and
`user left` events, the set of ids in `connectedUsers` is the set obtained by replaying
the same events on the id set of the snapshot (insert on join, erase on leave); and a
`user left` for an id that no entry carries leaves the state unchanged. -/
theorem presence_ids_follow_replay (users : List (Option User))
    (evs : List PresenceEvent) (s : State) :
    connectedIds (replayPresence evs (onUsersInRoom users s)) =
        replayIds evs (users.map idOf).toFinset ∧
      ∀ (s1 : State) (userId : Option String),
        userId ∉ s1.connectedUsers.map idOf →
          (onUserLeft userId s1).connectedUsers = s1.connectedUsers ∧
            onUserLeft userId s1 = s1 := by
  refine ⟨?_, ?_⟩
  · rw [connectedIds_replayPresence]
    rfl
  · intro s1 userId h
    have heq := onUserLeft_of_not_mem userId s1 h
    exact ⟨by rw [heq], heq⟩

/-- C1 at a concrete snapshot and event sequence, with a `user left` for an absent id. -/
theorem presence_ids_follow_replay_witness :
    connectedIds (replayPresence
        [PresenceEvent.userJoined (some bob), PresenceEvent.userLeft (some "u1"),
          PresenceEvent.userLeft (some "u9")]
        (onUsersInRoom [some alice] initial)) =
      replayIds
        [PresenceEvent.userJoined (some bob), PresenceEvent.userLeft (some "u1"),
          PresenceEvent.userLeft (some "u9")]
        ([some alice].map idOf).toFinset ∧
    (onUserLeft (some "u9") sessionA).connectedUsers = sessionA.connectedUsers :=
  ⟨(presence_ids_follow_replay [some alice]
      [PresenceEvent.userJoined (some bob), PresenceEvent.userLeft (some "u1"),
        PresenceEvent.userLeft (some "u9")] initial).1,
    ((presence_ids_follow_replay [] [] initial).2 sessionA (some "u9") (by decide)).1⟩

/-- C2, as stated, fails: with `alice` already connected and no repeated id, a second
`user joined` for `alice` changes the list and makes her id occur twice. -/
theorem user_joined_repeats_present_id :
    ((onUsersInRoom [some alice] initial).connectedUsers.map idOf).Nodup ∧
      (onUserJoined (some alice) (onUsersInRoom [some alice] initial)).connectedUsers =
        [some alice, some alice] ∧
      (onUserJoined (some alice) (onUsersInRoom [some alice] initial)).connectedUsers ≠
        (onUsersInRoom [some alice] initial).connectedUsers ∧
      ¬ ((onUserJoined (some alice)
          (onUsersInRoom [some alice] initial)).connectedUsers.map idOf).Nodup := by
  decide

/-- C2, amended: `user joined` appends the user at the tail whatever the list holds, and
the resulting list has no repeated id exactly when the list had none and the id of the
new user was not yet present. -/
theorem user_joined_appends (user : Option User) (s : State) :
    (onUserJoined user s).connectedUsers = s.connectedUsers ++ [user] ∧
      (((onUserJoined user s).connectedUsers.map idOf).Nodup ↔
        (s.connectedUsers.map idOf).Nodup ∧ idOf user ∉ s.connectedUsers.map idOf) := by
  refine ⟨rfl, ?_⟩
  show ((s.connectedUsers ++ [user]).map idOf).Nodup ↔ _
  rw [List.map_append, List.nodup_append]
  simp only [List.map_cons, List.map_nil, List.nodup_cons, List.not_mem_nil,
    not_false_eq_true, List.nodup_nil, and_self, true_and, List.disjoint_singleton]

/-! ## Room teardown -/

/-- C3, as stated, fails: the teardown of a session that holds a message, two connected
users and a typing user leaves all three in place, and they are still there once the
next room has been entered. -/
theorem cleanup_keeps_room_state :
    (cleanup (some roomA) sessionA).messages = [m1] ∧
      (cleanup (some roomA) sessionA).connectedUsers = [some alice, some bob] ∧
      (cleanup (some roomA) sessionA).typingUsers.toArray = [some "bob"] ∧
      (enterRoom (some roomB) (cleanup (some roomA) sessionA)).messages = [m1] ∧
      (enterRoom (some roomB) (cleanup (some roomA) sessionA)).connectedUsers =
        [some alice, some bob] ∧
      (enterRoom (some roomB) (cleanup (some roomA) sessionA)).typingUsers.toArray =
        [some "bob"] := by
  decide

/-- C3, amended: the teardown emits `leave room` for the room and leaves no listener for
the seven event names, and `messages`, `connectedUsers` and `typingUsers` are what they
were before it. -/
theorem cleanup_leaves_stores_unchanged (selectedGroup : Option Group) (s : State) :
    (cleanup selectedGroup s).messages = s.messages ∧
      (cleanup selectedGroup s).connectedUsers = s.connectedUsers ∧
      (cleanup selectedGroup s).typingUsers = s.typingUsers ∧
      (cleanup selectedGroup s).emitted =
        s.emitted ++ [Emit.leaveRoom (groupIdOf selectedGroup)] ∧
      ∀ name ∈ ["message received", "users in room", "user joined", "user left",
          "user typing", "user stop typing", "notification"],
        name ∉ (cleanup selectedGroup s).listeners := by
  refine ⟨?_, ?_, ?_, ?_, ?_⟩
  · simp only [cleanup, socketOff, emit]
  · simp only [cleanup, socketOff, emit]
  · simp only [cleanup, socketOff, emit]
  · simp only [cleanup, socketOff, emit]
  · intro name hname hmem
    simp only [cleanup, socketOff, emit, List.filter_filter, List.mem_filter,
      Bool.and_eq_true, bne_iff_ne, ne_eq] at hmem
    simp only [List.mem_cons, List.mem_singleton, List.not_mem_nil, or_false] at hname
    rcases hname with h | h | h | h | h | h | h <;> simp [h] at hmem

end ChatArea

/-! ## Messages -/

namespace ChatArea

/-- C4: when the history fetch resolves with `h` and `message received` then delivers
`m`, the message list is `h` followed by `m`, whatever the `createdAt` values; for
`h = [m1]` and `m = m2` it is `[m1, m2]`. -/
theorem history_then_message_order (h : List Message) (m : Message) (s : State) :
    (onMessageReceived m (fetchMessagesSettled (some h) s)).messages = h ++ [m] ∧
      ∀ a b : Message,
        (onMessageReceived b (fetchMessagesSettled (some [a]) s)).messages = [a, b] :=
  ⟨rfl, fun _ _ => rfl⟩

/-- C5, as stated, fails: a message delivered before the history fetch resolves is gone
once the fetch resolves with a history that does not hold it. -/
theorem message_before_history_is_lost :
    m2 ∉ [m1] ∧
      m2 ∈ (onMessageReceived m2 (enterRoom (some roomA) initial)).messages ∧
      (fetchMessagesSettled (some [m1])
        (onMessageReceived m2 (enterRoom (some roomA) initial))).messages = [m1] ∧
      m2 ∉ (fetchMessagesSettled (some [m1])
        (onMessageReceived m2 (enterRoom (some roomA) initial))).messages := by
  decide

/-- C5, amended: a message delivered after the history fetch resolved is in the message
list; when it is delivered first, the list after the fetch resolves is exactly the
history, so the message is in it only if the history holds it. -/
theorem message_kept_after_history_only (h : List Message) (m : Message) (s : State) :
    m ∈ (onMessageReceived m (fetchMessagesSettled (some h) s)).messages ∧
      (fetchMessagesSettled (some h) (onMessageReceived m s)).messages = h ∧
      (m ∈ (fetchMessagesSettled (some h) (onMessageReceived m s)).messages ↔ m ∈ h) := by
  refine ⟨?_, rfl, Iff.rfl⟩
  show m ∈ h ++ [m]
  simp

/-- C6: when `sendMessage` passes its blank-input guard and the server answers with `d`,
and `message received` then delivers the same `d`, the message list is the old one
followed by `d` twice. -/
theorem send_then_echo_appends_twice (selectedGroup : Option Group)
    (post : PostBody → Option Message) (s : State) (d : Message)
    (hinput : trim s.newMessage ≠ "")
    (hpost : post { content := s.newMessage, groupId := groupIdOf selectedGroup } = some d) :
    (sendMessage selectedGroup post s).messages = s.messages ++ [d] ∧
      (onMessageReceived d (sendMessage selectedGroup post s)).messages =
        s.messages ++ [d, d] ∧
      ((onMessageReceived d (sendMessage selectedGroup post s)).messages.filter
        (fun m => m._id == d._id)).length =
          (s.messages.filter (fun m => m._id == d._id)).length + 2 := by
  have hsend : (sendMessage selectedGroup post s).messages = s.messages ++ [d] := by
    simp only [sendMessage, hinput, if_false, hpost, sendMessageResolved, emit]
  have hecho : (onMessageReceived d (sendMessage selectedGroup post s)).messages =
      s.messages ++ [d, d] := by
    show (sendMessage selectedGroup post s).messages ++ [d] = _
    rw [hsend, List.append_assoc]
    rfl
  refine ⟨hsend, hecho, ?_⟩
  rw [hecho, List.filter_append, List.length_append]
  simp

/-- C6 at a concrete input: `hello` is sent from an empty room and echoed back. -/
theorem send_then_echo_appends_twice_witness :
    (onMessageReceived m3
        (sendMessage (some roomA) (fun _ => some m3)
          (handleTyping (some roomA) me "hello" initial))).messages = [m3, m3] :=
  (send_then_echo_appends_twice (some roomA) (fun _ => some m3)
    (handleTyping (some roomA) me "hello" initial) m3 (by decide) rfl).2.1

/-! ## Typing users -/

/-- C7: `user typing` then `user stop typing` for one username on an empty set gives the
empty set; `user stop typing` for a username that is not in the set changes nothing; and
`user typing` for a username already in the set changes nothing. -/
theorem typing_set_laws (u : Option String) (s : State) :
    (onUserStopTyping u
        (onUserTyping u { s with typingUsers := JSSet.empty })).typingUsers = JSSet.empty ∧
      (u ∉ s.typingUsers.toArray → onUserStopTyping u s = s) ∧
      (u ∈ s.typingUsers.toArray → onUserTyping u s = s) := by
  refine ⟨?_, ?_, ?_⟩
  · have h1 : (onUserStopTyping u
          (onUserTyping u { s with typingUsers := JSSet.empty })).typingUsers =
        ((JSSet.empty : JSSet (Option String)).add u).delete u := by
      rw [onUserStopTyping_eq, onUserTyping_eq]
    rw [h1]
    exact JSSet.delete_add_empty u
  · intro h
    rw [onUserStopTyping_eq, JSSet.delete_of_not_mem _ _ h]
  · intro h
    rw [onUserTyping_eq, JSSet.add_of_mem _ _ h]

/-- C7 at concrete inputs: `alice` on the empty set, a stop for `carol` and a second
start for `bob` on a set that holds `bob` only. -/
theorem typing_set_laws_witness :
    (onUserStopTyping (some "alice") (onUserTyping (some "alice") initial)).typingUsers =
        JSSet.empty ∧
      onUserStopTyping (some "carol") sessionA = sessionA ∧
      onUserTyping (some "bob") sessionA = sessionA :=
  ⟨(typing_set_laws (some "alice") initial).1,
    (typing_set_laws (some "carol") sessionA).2.1 (by decide),
    (typing_set_laws (some "bob") sessionA).2.2 (by decide)⟩

/-! ## Notifications -/

/-- C10: the `notification` handler makes exactly one `toast` call and nothing else; the
toast has the message of the notification as description, duration 3000 and status `info`;
its title is `New User` for type `USER_JOINED` and `Notification` for any other type. -/
theorem notification_dispatches_one_toast (n : Notification) (s : State) :
    (∃ t : ToastOptions,
      onNotification n s = { s with toasts := s.toasts ++ [t] } ∧
        t.description = n.message ∧ t.duration = 3000 ∧ t.status = "info" ∧
        (n.type = some "USER_JOINED" → t.title = "New User") ∧
        (n.type ≠ some "USER_JOINED" → t.title = "Notification")) ∧
      (onNotification n s).toasts.length = s.toasts.length + 1 := by
  refine ⟨⟨_, rfl, rfl, rfl, rfl, ?_, ?_⟩, ?_⟩
  · intro h
    simp only [h, if_true]
  · intro h
    simp only [h, if_false]
  · simp [onNotification, toast]

/-- C10 at the notification `USER_JOINED` / `Bob joined` and at one of another type. -/
theorem notification_dispatches_one_toast_witness :
    (onNotification { type := some "USER_JOINED", message := some "Bob joined" }
        initial).toasts =
      [{ title := "New User", description := some "Bob joined", status := "info",
          duration := 3000, isClosable := true, position := some "top-right" }] ∧
    (onNotification { type := some "USER_LEFT", message := some "Bob left" }
        initial).toasts.length = 0 + 1 :=
  ⟨by decide,
    (notification_dispatches_one_toast
      { type := some "USER_LEFT", message := some "Bob left" } initial).2⟩

end ChatArea

/-! ## Local typing debounce -/

namespace ChatArea

theorem handleTyping_emitted (g : Group) (currentUser : Option UserInfo) (value : String)
    (s : State) :
    (handleTyping (some g) currentUser value s).emitted =
      s.emitted ++
        (if s.isTyping then []
          else [Emit.typing (some g._id) (usernameOf currentUser)]) := by
  cases hfl : s.isTyping <;>
    simp [handleTyping, hfl, emit, clearTimeout, setTypingTimeout, groupIdOf]

theorem handleTyping_isTyping (g : Group) (currentUser : Option UserInfo) (value : String)
    (s : State) : (handleTyping (some g) currentUser value s).isTyping = true := by
  cases hfl : s.isTyping <;>
    simp [handleTyping, hfl, emit, clearTimeout, setTypingTimeout]

theorem handleTyping_ref (g : Group) (currentUser : Option UserInfo) (value : String)
    (s : State) :
    (handleTyping (some g) currentUser value s).typingTimeOutRef = some s.nextTimerId := by
  cases hfl : s.isTyping <;>
    simp [handleTyping, hfl, emit, clearTimeout, setTypingTimeout]

theorem handleTyping_timers (g : Group) (currentUser : Option UserInfo) (value : String)
    (s : State) :
    (handleTyping (some g) currentUser value s).timers =
      s.timers.filter (fun t => some t.id != s.typingTimeOutRef) ++
        [{ id := s.nextTimerId, delay := 2000, groupId := some g._id,
           username := usernameOf currentUser }] := by
  cases hfl : s.isTyping <;>
    simp [handleTyping, hfl, emit, clearTimeout, setTypingTimeout, groupIdOf]

theorem fireTimer_of_find (id : Nat) (t : Timer) (s : State)
    (h : s.timers.find? (fun t => t.id == id) = some t) :
    fireTimer id s =
      { s with
        timers := s.timers.filter (fun t => t.id != id),
        emitted := s.emitted ++ [Emit.stopTyping t.groupId t.username],
        isTyping := false } := by
  simp only [fireTimer, h, emit]

theorem fireTimer_of_not_pending (id : Nat) (s : State)
    (h : s.timers.find? (fun t => t.id == id) = none) : fireTimer id s = s := by
  simp only [fireTimer, h]


theorem typingInv_initial (groupId username : Option String) :
    TypingInv groupId username initial 0 :=
  { log := rfl, flag := rfl, idle := fun _ => rfl, active := fun h => by cases h }

theorem typingInv_edit (g : Group) (currentUser : Option UserInfo) (value : String)
    (s : State) (n : Nat) (h : TypingInv (some g._id) (usernameOf currentUser) s n) :
    ∃ k, TypingInv (some g._id) (usernameOf currentUser)
      (handleTyping (some g) currentUser value s) k := by
  have htimers : (handleTyping (some g) currentUser value s).timers =
      [{ id := s.nextTimerId, delay := 2000, groupId := some g._id,
         username := usernameOf currentUser }] := by
    rw [handleTyping_timers]
    cases hfl : s.isTyping with
    | false => rw [h.idle hfl]; rfl
    | true =>
      obtain ⟨t, ht, href, _⟩ := h.active hfl
      rw [ht, href]
      simp
  have hactive : ∃ t : Timer, (handleTyping (some g) currentUser value s).timers = [t] ∧
      (handleTyping (some g) currentUser value s).typingTimeOutRef = some t.id ∧
      t.delay = 2000 ∧ t.groupId = some g._id ∧ t.username = usernameOf currentUser :=
    ⟨_, htimers, handleTyping_ref g currentUser value s, rfl, rfl, rfl⟩
  have hflag := handleTyping_isTyping g currentUser value s
  cases hfl : s.isTyping with
  | false =>
    have hn : n % 2 = 0 := by
      have := h.flag
      rw [hfl] at this
      have h2 : ¬ (n % 2 = 1) := by simpa using this.symm
      omega
    refine ⟨n + 1, ?_, ?_, ?_, fun _ => hactive⟩
    · rw [handleTyping_emitted, hfl, h.log]
      simp [alternatingLog, hn]
    · rw [hflag]
      have : (n + 1) % 2 = 1 := by omega
      simp [this]
    · intro hf
      rw [hflag] at hf
      cases hf
  | true =>
    refine ⟨n, ?_, ?_, ?_, fun _ => hactive⟩
    · rw [handleTyping_emitted, hfl, h.log]
      simp
    · rw [hflag, ← hfl, h.flag]
    · intro hf
      rw [hflag] at hf
      cases hf

theorem typingInv_expiry (groupId username : Option String) (id : Nat)
    (s : State) (n : Nat) (h : TypingInv groupId username s n) :
    ∃ k, TypingInv groupId username (fireTimer id s) k := by
  cases hfind : s.timers.find? (fun t => t.id == id) with
  | none =>
    rw [fireTimer_of_not_pending id s hfind]
    exact ⟨n, h⟩
  | some t =>
    rw [fireTimer_of_find id t s hfind]
    cases hfl : s.isTyping with
    | false =>
      rw [h.idle hfl] at hfind
      cases hfind
    | true =>
      obtain ⟨t0, ht0, _, _, hgid, hun⟩ := h.active hfl
      have hn : n % 2 = 1 := by
        have := h.flag
        rw [hfl] at this
        simpa using this.symm
      have htid : t0 = t ∧ t0.id = id := by
        rw [ht0] at hfind
        simp only [List.find?_cons, List.find?_nil] at hfind
        cases hb : (t0.id == id) with
        | false => rw [hb] at hfind; cases hfind
        | true =>
          rw [hb] at hfind
          exact ⟨Option.some.inj hfind, by simpa using hb⟩
      obtain ⟨rfl, hid⟩ := htid
      refine ⟨n + 1, ?_, ?_, fun _ => ?_, fun hf => by cases hf⟩
      · show s.emitted ++ [Emit.stopTyping t0.groupId t0.username] = _
        rw [h.log, hgid, hun]
        have hne : ¬ (n % 2 = 0) := by omega
        simp [alternatingLog, hne]
      · show false = decide ((n + 1) % 2 = 1)
        have : ¬ ((n + 1) % 2 = 1) := by omega
        simp [this]
      · show s.timers.filter (fun t => t.id != id) = []
        rw [ht0]
        simp [hid]

theorem typingInv_run (g : Group) (currentUser : Option UserInfo)
    (inputs : List TypingInput) (s : State) (n : Nat)
    (h : TypingInv (some g._id) (usernameOf currentUser) s n) :
    ∃ k, TypingInv (some g._id) (usernameOf currentUser)
      (typingRun (some g) currentUser inputs s) k := by
  induction inputs generalizing s n with
  | nil => exact ⟨n, h⟩
  | cons inp rest ih =>
    have hstep : ∃ k, TypingInv (some g._id) (usernameOf currentUser)
        (typingStep (some g) currentUser s inp) k := by
      cases inp with
      | edit value => exact typingInv_edit g currentUser value s n h
      | expiry id => exact typingInv_expiry _ _ id s n h
    obtain ⟨k, hk⟩ := hstep
    exact ih _ k hk

end ChatArea

namespace ChatArea

/-- C8: after any sequence of edits and timer expiries in one selected room, starting from
the mounted state, the emissions are `typing, stop typing, typing, ...` in strict
alternation, the flag is set exactly when the single 2000 ms timer is pending, the next
edit emits `typing` exactly when the flag is not set and cancels and re-arms that timer,
and the expiry of the pending timer emits one `stop typing`, clears the flag and leaves
no timer pending, so that no second `stop typing` can follow without an edit. -/
theorem typing_debounce_alternates (g : Group) (currentUser : Option UserInfo)
    (inputs : List TypingInput) :
    (∃ n, (typingRun (some g) currentUser inputs initial).emitted =
          alternatingLog (some g._id) (usernameOf currentUser) n ∧
        (typingRun (some g) currentUser inputs initial).isTyping = decide (n % 2 = 1)) ∧
      (typingRun (some g) currentUser inputs initial).timers.length ≤ 1 ∧
      ((typingRun (some g) currentUser inputs initial).isTyping = true ↔
        (typingRun (some g) currentUser inputs initial).timers ≠ []) ∧
      (∀ value : String,
        (handleTyping (some g) currentUser value
            (typingRun (some g) currentUser inputs initial)).emitted =
          (typingRun (some g) currentUser inputs initial).emitted ++
            (if (typingRun (some g) currentUser inputs initial).isTyping then []
              else [Emit.typing (some g._id) (usernameOf currentUser)]) ∧
        (handleTyping (some g) currentUser value
            (typingRun (some g) currentUser inputs initial)).isTyping = true ∧
        (handleTyping (some g) currentUser value
            (typingRun (some g) currentUser inputs initial)).timers =
          [{ id := (typingRun (some g) currentUser inputs initial).nextTimerId,
             delay := 2000, groupId := some g._id,
             username := usernameOf currentUser }] ∧
        (handleTyping (some g) currentUser value
            (typingRun (some g) currentUser inputs initial)).typingTimeOutRef =
          some (typingRun (some g) currentUser inputs initial).nextTimerId) ∧
      (∀ (id : Nat) (t : Timer),
        (typingRun (some g) currentUser inputs initial).timers.find?
            (fun t => t.id == id) = some t →
          (fireTimer id (typingRun (some g) currentUser inputs initial)).emitted =
            (typingRun (some g) currentUser inputs initial).emitted ++
              [Emit.stopTyping (some g._id) (usernameOf currentUser)] ∧
          (fireTimer id (typingRun (some g) currentUser inputs initial)).isTyping = false ∧
          (fireTimer id (typingRun (some g) currentUser inputs initial)).timers = [] ∧
          ∀ id2 : Nat,
            fireTimer id2 (fireTimer id (typingRun (some g) currentUser inputs initial)) =
              fireTimer id (typingRun (some g) currentUser inputs initial)) := by
  obtain ⟨n, hinv⟩ := typingInv_run g currentUser inputs initial 0 (typingInv_initial _ _)
  generalize typingRun (some g) currentUser inputs initial = s at hinv ⊢
  have htimers : ∀ value : String, (handleTyping (some g) currentUser value s).timers =
      [{ id := s.nextTimerId, delay := 2000, groupId := some g._id,
         username := usernameOf currentUser }] := by
    intro value
    rw [handleTyping_timers]
    cases hfl : s.isTyping with
    | false => rw [hinv.idle hfl]; rfl
    | true =>
      obtain ⟨t, ht, href, _⟩ := hinv.active hfl
      rw [ht, href]
      simp
  refine ⟨⟨n, hinv.log, hinv.flag⟩, ?_, ?_, ?_, ?_⟩
  · cases hfl : s.isTyping with
    | false => rw [hinv.idle hfl]; simp
    | true =>
      obtain ⟨t, ht, _⟩ := hinv.active hfl
      rw [ht]
      simp
  · cases hfl : s.isTyping with
    | false => rw [hinv.idle hfl]; simp
    | true =>
      obtain ⟨t, ht, _⟩ := hinv.active hfl
      rw [ht]
      simp
  · intro value
    exact ⟨handleTyping_emitted g currentUser value s,
      handleTyping_isTyping g currentUser value s, htimers value,
      handleTyping_ref g currentUser value s⟩
  · intro id t hfind
    obtain ⟨k, hk⟩ := typingInv_expiry _ _ id s n hinv
    have hflag : (fireTimer id s).isTyping = false := by
      rw [fireTimer_of_find id t s hfind]
    have hempty : (fireTimer id s).timers = [] := hk.idle hflag
    have hactive : s.isTyping = true := by
      cases hfl : s.isTyping with
      | false => rw [hinv.idle hfl] at hfind; cases hfind
      | true => rfl
    obtain ⟨t0, ht0, _, _, hgid, hun⟩ := hinv.active hactive
    have ht : t0 = t := by
      rw [ht0] at hfind
      simp only [List.find?_cons, List.find?_nil] at hfind
      cases hb : (t0.id == id) with
      | false => rw [hb] at hfind; cases hfind
      | true => rw [hb] at hfind; exact Option.some.inj hfind
    refine ⟨?_, hflag, hempty, ?_⟩
    · rw [fireTimer_of_find id t s hfind, ← ht, hgid, hun]
    · intro id2
      apply fireTimer_of_not_pending
      rw [hempty]
      rfl

/-- C8 at a concrete run: edit, edit, expiry, edit, expiry in `roomA`. -/
theorem typing_debounce_alternates_witness :
    (typingRun (some roomA) me
        [TypingInput.edit "h", TypingInput.edit "hi", TypingInput.expiry 1,
          TypingInput.edit "hi!", TypingInput.expiry 2] initial).emitted =
      [Emit.typing (some "r1") (some "alice"), Emit.stopTyping (some "r1") (some "alice"),
        Emit.typing (some "r1") (some "alice"), Emit.stopTyping (some "r1") (some "alice")] ∧
    (fireTimer 1 (typingRun (some roomA) me
        [TypingInput.edit "h", TypingInput.edit "hi"] initial)).emitted =
      (typingRun (some roomA) me
        [TypingInput.edit "h", TypingInput.edit "hi"] initial).emitted ++
        [Emit.stopTyping (some roomA._id) (usernameOf me)] :=
  ⟨by decide,
    ((typing_debounce_alternates roomA me
      [TypingInput.edit "h", TypingInput.edit "hi"]).2.2.2.2 1
        { id := 1, delay := 2000, groupId := some "r1", username := some "alice" }
        (by decide)).1⟩

/-- C9, as stated, fails: a timer armed in `roomA` is still pending after the teardown of
`roomA`, and its expiry emits `stop typing` for `roomA` after `leave room`. -/
theorem stop_typing_follows_leave_room :
    (cleanup (some roomA)
        (handleTyping (some roomA) me "h" (enterRoom (some roomA) initial))).timers =
      [{ id := 0, delay := 2000, groupId := some "r1", username := some "alice" }] ∧
    (fireTimer 0 (cleanup (some roomA)
        (handleTyping (some roomA) me "h" (enterRoom (some roomA) initial)))).emitted =
      [Emit.joinRoom (some "r1"), Emit.typing (some "r1") (some "alice"),
        Emit.leaveRoom (some "r1"), Emit.stopTyping (some "r1") (some "alice")] := by
  decide

/-- C9, amended: the teardown leaves the pending timers, the timer ref and the flag as
they were, and when a timer that was pending before the teardown expires after it, a
`stop typing` with the room id and username captured when the timer was armed is emitted
right after the `leave room` emission. -/
theorem cleanup_keeps_typing_timer (selectedGroup : Option Group) (s : State) (id : Nat)
    (t : Timer) (h : s.timers.find? (fun t => t.id == id) = some t) :
    (cleanup selectedGroup s).timers = s.timers ∧
      (cleanup selectedGroup s).typingTimeOutRef = s.typingTimeOutRef ∧
      (cleanup selectedGroup s).isTyping = s.isTyping ∧
      (fireTimer id (cleanup selectedGroup s)).emitted =
        s.emitted ++
          [Emit.leaveRoom (groupIdOf selectedGroup), Emit.stopTyping t.groupId t.username] := by
  have ht : (cleanup selectedGroup s).timers = s.timers := by
    simp only [cleanup, socketOff, emit]
  have he : (cleanup selectedGroup s).emitted =
      s.emitted ++ [Emit.leaveRoom (groupIdOf selectedGroup)] := by
    simp only [cleanup, socketOff, emit]
  refine ⟨ht, ?_, ?_, ?_⟩
  · simp only [cleanup, socketOff, emit]
  · simp only [cleanup, socketOff, emit]
  · have hfind : (cleanup selectedGroup s).timers.find? (fun t => t.id == id) = some t := by
      rw [ht]
      exact h
    rw [fireTimer_of_find id t _ hfind]
    show (cleanup selectedGroup s).emitted ++ [Emit.stopTyping t.groupId t.username] = _
    rw [he, List.append_assoc]
    rfl

/-- C9, amended, at the timer armed by one edit in `roomA`. -/
theorem cleanup_keeps_typing_timer_witness :
    (fireTimer 0 (cleanup (some roomA) (handleTyping (some roomA) me "h" initial))).emitted =
      (handleTyping (some roomA) me "h" initial).emitted ++
        [Emit.leaveRoom (groupIdOf (some roomA)),
          Emit.stopTyping (some "r1") (some "alice")] :=
  (cleanup_keeps_typing_timer (some roomA) (handleTyping (some roomA) me "h" initial) 0
    { id := 0, delay := 2000, groupId := some "r1", username := some "alice" }
    (by decide)).2.2.2

end ChatArea
